import Mathlib

/-!
Shallow embedding of the phone-normalization and deduplicating-collector
logic of the myhome.ge scraping scripts.

Strings are modelled by Lean `String`s; all character-level work goes
through `String.data : List Char`, so `re.sub(r'\D', '', s)` becomes a
`List.filter` and Python slices become `List.take` / `List.drop`.
Python dictionaries of string fields become association lists
`List (String × String)`, Python sets become `Finset String`, and the
scripts' sequential loops become `List.foldl` over explicit state.
-/

/-- Embedding of `re.sub(r'\D', '', phone)`: the digit characters of a string, in order. -/
def digitsOf (s : String) : List Char :=
  s.data.filter Char.isDigit

/-- Python `str.strip()`: drop whitespace from both ends of a string. -/
def pstrip (s : String) : String :=
  ⟨((s.data.dropWhile Char.isWhitespace).reverse.dropWhile Char.isWhitespace).reverse⟩

namespace MegaAgentScraper

/-- Embedding of `MegaAgentScraper.normalize_phone` (src/mega_agent_scraper.py, lines 52-66).
The identical function body also appears as `TurboOwnerScraper.normalize_phone`
(src/turbo_owner_scraper.py, lines 62-76), as
`MegaAgentScraperEnhanced.normalize_phone`
(src/mega_agent_scraper_enhanced.py, lines 63-77) and as the module-level
`normalize_phone` of src/mega_monitor.py (lines 15-29).
Python's falsy test `if not phone` on a string is the emptiness test, and
rejection is signalled by returning the empty string. -/
def normalize_phone (phone : String) : String :=
  if phone = "" then ""
  else
    let digits := digitsOf phone
    if digits.length = 9 ∧ digits.take 1 = ['5'] then
      ('+' :: '9' :: '9' :: '5' :: digits).asString
    else if digits.length = 12 ∧ digits.take 3 = ['9', '9', '5'] then
      ('+' :: digits).asString
    else if 9 ≤ digits.length then
      ('+' :: '9' :: '9' :: '5' :: digits.drop (digits.length - 9)).asString
    else ""

/-- The normalization outcome as used by the collectors: the scripts test the
returned string for truthiness (`if normalized:`), so the empty string plays
the role of `None`.  `.strip()` is applied to the raw cell first, exactly as in
`load_existing_agent_phones` / `add_phones_from_csv` row handling. -/
def normalizeOpt (p : String) : Option String :=
  let normalized := normalize_phone (pstrip p)
  if normalized = "" then none else some normalized

/-- One iteration of the row loop of
`MegaAgentScraper.load_existing_agent_phones` (src/mega_agent_scraper.py,
lines 37-50): `phone = row.get('Phone', '').strip(); if phone: normalized =
self.normalize_phone(phone); if normalized: self.agent_phones.add(normalized)`. -/
def acceptRaw (acc : Finset String) (p : String) : Finset String :=
  let phone := pstrip p
  if phone ≠ "" then
    let normalized := normalize_phone phone
    if normalized ≠ "" then insert normalized acc else acc
  else acc

/-- Feeding a sequence of raw phone strings to a collector's accepted set:
the row loop of `load_existing_agent_phones`, and equally the accept step of
the `mega_agent_scrape` / `turbo_scrape` main loops, which add each
successfully normalized phone to the set. -/
def feed_raw_phones (s : Finset String) (rows : List String) : Finset String :=
  rows.foldl acceptRaw s

/-- The accept-and-count step used by `TurboOwnerScraper.turbo_scrape`
(src/turbo_owner_scraper.py, lines 219-249: `old_count = len(...)`, add,
`if len(...) > old_count: new_phones_found += 1`) and by
`MasterDeduplicator.add_phones_from_csv` (src/master_deduplicator.py, lines
58-65): a normalized phone is inserted, and the counter ticks exactly when the
identity was not already present. -/
def acceptRawCount (sc : Finset String × Nat) (p : String) : Finset String × Nat :=
  let phone := pstrip p
  if phone ≠ "" then
    let normalized := normalize_phone phone
    if normalized ≠ "" ∧ normalized ∉ sc.1 then (insert normalized sc.1, sc.2 + 1)
    else sc
  else sc

/-- Feeding raw phones while counting how many were new (the
`new_phones_found` / `added_count` bookkeeping of the run loops). -/
def feed_raw_phones_count (s : Finset String) (rows : List String) :
    Finset String × Nat :=
  rows.foldl acceptRawCount (s, 0)

/-- Embedding of `TurboOwnerScraper.load_existing_phones` (src/turbo_owner_scraper.py,
lines 38-60): each prior export file is read in turn and every raw `Phone`
cell is re-normalized before insertion.  `MegaAgentScraper.
load_existing_agent_phones` is the single-file instance of the same loop. -/
def load_existing_phones (s : Finset String) (files : List (List String)) :
    Finset String :=
  files.foldl feed_raw_phones s

/-- The phone field-name candidates probed by
`MegaAgentScraper.extract_phone_from_agent` (src/mega_agent_scraper.py,
line 134): `['phone', 'mobile', 'telephone', 'contact', 'phoneNumber']`. -/
def phone_fields : List String := ["phone", "mobile", "telephone", "contact", "phoneNumber"]

/-- The field-probing loop of `extract_phone_from_agent`
(src/mega_agent_scraper.py, lines 131-148): for each candidate field name in
order, `if field in agent and agent[field]:` then normalize
`str(agent[field]).strip()` and return it if it is truthy and not already in
`self.agent_phones`; otherwise keep probing. -/
def extractFirst (agent_phones : Finset String) (agent : List (String × String)) :
    List String → Option String
  | [] => none
  | f :: rest =>
    match agent.lookup f with
    | some v =>
      if v ≠ "" then
        let normalized := normalize_phone (pstrip v)
        if normalized ≠ "" ∧ normalized ∉ agent_phones then some normalized
        else extractFirst agent_phones agent rest
      else extractFirst agent_phones agent rest
    | none => extractFirst agent_phones agent rest

/-- Embedding of `MegaAgentScraper.extract_phone_from_agent`
(src/mega_agent_scraper.py, lines 131-148). -/
def extract_phone_from_agent (agent_phones : Finset String)
    (agent : List (String × String)) : Option String :=
  extractFirst agent_phones agent phone_fields

/-- State of one `mega_agent_scrape` run (src/mega_agent_scraper.py):
`self.agent_phones`, `self.processed_agents`, plus the trace of agent ids on
which phone extraction was actually invoked (the calls to
`scrape_agent_and_sub_agents` + `extract_phone_from_agent`), recorded to state
the never-extracted-twice guarantee. -/
structure CollectorState where
  agent_phones : Finset String
  processed_agents : Finset String
  extract_trace : List String

/-- The inner loop `for agent in all_agents:` of `mega_agent_scrape`
(src/mega_agent_scraper.py, lines 202-215): each agent record of an entity is
run through `extract_phone_from_agent` against the current accepted set and
any returned phone is added. -/
def acceptAgents (s : Finset String) (agents : List (List (String × String))) :
    Finset String :=
  agents.foldl
    (fun acc agent =>
      match extract_phone_from_agent acc agent with
      | some phone => insert phone acc
      | none => acc) s

/-- One iteration of the outer loop of `mega_agent_scrape`
(src/mega_agent_scraper.py, lines 194-221): a previously processed agent id is
skipped (`if agent_id in self.processed_agents: continue`); otherwise its
records (`agentsOf agent_id` abstracts the network-bound
`scrape_agent_and_sub_agents`) are phone-extracted and the id is marked
processed regardless of whether any phone was found. -/
def collectStep (agentsOf : String → List (List (String × String)))
    (st : CollectorState) (agent_id : String) : CollectorState :=
  if agent_id ∈ st.processed_agents then st
  else
    { agent_phones := acceptAgents st.agent_phones (agentsOf agent_id)
      processed_agents := insert agent_id st.processed_agents
      extract_trace := st.extract_trace ++ [agent_id] }

/-- The outer loop of `mega_agent_scrape` over the discovered agent ids
(src/mega_agent_scraper.py, lines 194-231).  The target-reached `break` only
truncates the id list, so it is covered by quantifying over the list of ids
actually iterated. -/
def mega_agent_scrape (agentsOf : String → List (List (String × String)))
    (st : CollectorState) (ids : List String) : CollectorState :=
  ids.foldl (collectStep agentsOf) st

/-- The per-record body of `turbo_scrape` (src/turbo_owner_scraper.py, lines
219-249) at the acceptance level: each step yields an optional
already-normalized phone (`scrape_property_phone` result), it is added to the
set, and then `if len(self.owner_phones) >= self.target_phones: break` is the
acceptance-boundary target check.  `mega_agent_scrape` (src/
mega_agent_scraper.py, lines 217-221) has the same check after each entity. -/
def scrapeLoop (target : Nat) : Finset String → List (Option String) → Finset String
  | s, [] => s
  | s, p :: rest =>
    let s' := match p with
      | some phone => insert phone s
      | none => s
    if target ≤ s'.card then s' else scrapeLoop target s' rest

/-- Run shape of `turbo_scrape` / `mega_agent_scrape`: an up-front
target-already-reached return, then the acceptance loop. -/
def turbo_scrape (target : Nat) (s : Finset String) (phones : List (Option String)) :
    Finset String :=
  if target ≤ s.card then s else scrapeLoop target s phones

/-- The run's reported outcome: `'YES' if final_count >= self.target_phones
else ...` (src/turbo_owner_scraper.py line 256, src/mega_agent_scraper.py
line 240). -/
def scrape_success (target : Nat) (final : Finset String) : Bool :=
  target ≤ final.card

/-- Row formatting of `export_mega_agents_csv` (src/mega_agent_scraper.py, lines
150-173): phones are written sorted, each formatted as
`+995 {digits[3:6]} {digits[6:9]} {digits[9:12]}` when it has at least 12
digits, else verbatim. -/
def export_row_format (phone : String) : String :=
  let digits := digitsOf phone
  if 12 ≤ digits.length then
    ("+995 ".data ++ (digits.drop 3).take 3 ++ ' ' :: (digits.drop 6).take 3
      ++ ' ' :: (digits.drop 9).take 3).asString
  else phone

end MegaAgentScraper

namespace MegaAgentScraperEnhanced

/-- The phone field-name candidates probed by
`MegaAgentScraperEnhanced.extract_phone_from_agent_enhanced`
(src/mega_agent_scraper_enhanced.py, line 345):
`['phone_number', 'phone', 'mobile', 'tel', 'telephone']`. -/
def phone_fields : List String := ["phone_number", "phone", "mobile", "tel", "telephone"]

/-- An agent record as consumed by the enhanced extractor: its top-level
string fields, plus the optional `contact_info` sub-dictionary. -/
structure Agent where
  fields : List (String × String)
  contact_info : Option (List (String × String))

/-- The field-probing loop of `extract_phone_from_agent_enhanced`
(src/mega_agent_scraper_enhanced.py, lines 341-368), run over one dictionary
(the agent itself or its `contact_info`).  Identical to the non-enhanced loop
except that the enhanced code applies no `.strip()` (`phone =
str(agent[field])`).  The normalizer is the byte-identical
`normalize_phone` of src/mega_agent_scraper_enhanced.py lines 63-77. -/
def extractFirstE (agent_phones : Finset String) (fields : List (String × String)) :
    List String → Option String
  | [] => none
  | f :: rest =>
    match fields.lookup f with
    | some v =>
      if v ≠ "" then
        let normalized := MegaAgentScraper.normalize_phone v
        if normalized ≠ "" ∧ normalized ∉ agent_phones then some normalized
        else extractFirstE agent_phones fields rest
      else extractFirstE agent_phones fields rest
    | none => extractFirstE agent_phones fields rest

/-- Embedding of `MegaAgentScraperEnhanced.extract_phone_from_agent_enhanced`
(src/mega_agent_scraper_enhanced.py, lines 341-368): probe the top-level
fields, then fall back to the same probe inside `contact_info`. -/
def extract_phone_from_agent_enhanced (agent_phones : Finset String)
    (agent : Agent) : Option String :=
  match extractFirstE agent_phones agent.fields phone_fields with
  | some phone => some phone
  | none =>
    match agent.contact_info with
    | some contact => extractFirstE agent_phones contact phone_fields
    | none => none

end MegaAgentScraperEnhanced

namespace MasterDeduplicator

/-- Embedding of `MasterDeduplicator.normalize_phone` (src/master_deduplicator.py,
lines 25-44).  Same cascade as the scraper variant, except that an input it cannot
normalize is returned unchanged (`return phone  # Return as-is if can't
normalize`). -/
def normalize_phone (phone : String) : String :=
  if phone = "" then ""
  else
    let digits := digitsOf phone
    if digits.length = 9 ∧ digits.take 1 = ['5'] then
      ('+' :: '9' :: '9' :: '5' :: digits).asString
    else if digits.length = 12 ∧ digits.take 3 = ['9', '9', '5'] then
      ('+' :: digits).asString
    else if 9 ≤ digits.length then
      ('+' :: '9' :: '9' :: '5' :: digits.drop (digits.length - 9)).asString
    else phone

/-- Embedding of `MasterDeduplicator.format_phone_for_excel` (src/master_deduplicator.py,
lines 75-87): `re.sub(r'[^\d]', '', phone)` then either
`+995 {digits[3:6]} {digits[6:9]} {digits[9:12]}` (≥ 12 digits starting
`995`), or `+995 {digits[-9:-6]} {digits[-6:-3]} {digits[-3:]}` (≥ 9
digits), else the input unchanged. -/
def format_phone_for_excel (phone : String) : String :=
  let digits := digitsOf phone
  if 12 ≤ digits.length ∧ digits.take 3 = ['9', '9', '5'] then
    ("+995 ".data ++ (digits.drop 3).take 3 ++ ' ' :: (digits.drop 6).take 3
      ++ ' ' :: (digits.drop 9).take 3).asString
  else if 9 ≤ digits.length then
    ("+995 ".data ++ (digits.drop (digits.length - 9)).take 3
      ++ ' ' :: (digits.drop (digits.length - 6)).take 3
      ++ ' ' :: digits.drop (digits.length - 3)).asString
  else phone

/-- The data rows written by `MasterDeduplicator.export_phone_only_csv`
(src/master_deduplicator.py, lines 109-122) and, with a second `Source`
column, by `export_master_csv` (lines 88-107): `sorted(self.unique_phones)`
then one `format_phone_for_excel(phone)` cell per row. -/
def export_phone_only_rows (unique_phones : Finset String) : List String :=
  (unique_phones.sort (· ≤ ·)).map format_phone_for_excel

end MasterDeduplicator

namespace ExcelUtils

/-- The data rows written by `save_phones_to_excel_compatible_csv`
(src/excel_utils.py, lines 12-45): phones sorted, each prefixed with `+995`
when it does not already start with it, then a leading space is added
(`excel_safe_phone = f" {formatted_phone}"`) to force text interpretation. -/
def save_phones_to_excel_compatible_rows (phone_numbers : Finset String) :
    List String :=
  (phone_numbers.sort (· ≤ ·)).map fun phone =>
    (' ' :: (if phone.data.take 4 = ['+', '9', '9', '5'] then phone
             else ⟨'+' :: '9' :: '9' :: '5' :: phone.data⟩).data).asString

end ExcelUtils

/-- The candidate a single field name contributes in the extraction probe, as
the amended claim words it: the field must be present, non-empty, its
normalization must succeed, and the identity must not already be accepted.
Spec-side counterpart used to characterize `extractFirst` as a
first-match lookup. -/
def candidateOfField (agent_phones : Finset String)
    (agent : List (String × String)) (f : String) : Option String :=
  match agent.lookup f with
  | some v =>
    if v ≠ "" then
      let normalized := MegaAgentScraper.normalize_phone (pstrip v)
      if normalized ≠ "" ∧ normalized ∉ agent_phones then some normalized else none
    else none
  | none => none

/-- Same spec-side candidate for the enhanced extractor (no `.strip()`). -/
def candidateOfFieldE (agent_phones : Finset String)
    (fields : List (String × String)) (f : String) : Option String :=
  match fields.lookup f with
  | some v =>
    if v ≠ "" then
      let normalized := MegaAgentScraper.normalize_phone v
      if normalized ≠ "" ∧ normalized ∉ agent_phones then some normalized else none
    else none
  | none => none

/-! Section: Helper lemmas about digit stripping and the normalizer's branches -/

lemma digitsOf_empty : digitsOf "" = [] := rfl

lemma ne_empty_of_digitsOf {x : String} (h : digitsOf x ≠ []) : x ≠ "" := by
  rintro rfl
  exact h rfl

lemma isDigit_of_mem_digitsOf {x : String} : ∀ c ∈ digitsOf x, c.isDigit = true :=
  fun _ hc => List.of_mem_filter hc

lemma filter_isDigit_of_forall {l : List Char} (h : ∀ c ∈ l, c.isDigit = true) :
    l.filter Char.isDigit = l :=
  List.filter_eq_self.mpr h

lemma digitsOf_asString (l : List Char) : digitsOf l.asString = l.filter Char.isDigit := rfl

lemma asString_ne_empty {l : List Char} (h : l ≠ []) : l.asString ≠ "" := by
  intro hs
  apply h
  have hd := congrArg String.data hs
  simpa using hd

lemma digitsOf_canon {ds : List Char} (hd : ∀ c ∈ ds, c.isDigit = true) :
    digitsOf (('+' :: '9' :: '9' :: '5' :: ds).asString) = '9' :: '9' :: '5' :: ds := by
  have hplus : ('+' : Char).isDigit = false := rfl
  have h9 : ('9' : Char).isDigit = true := rfl
  have h5 : ('5' : Char).isDigit = true := rfl
  rw [digitsOf_asString]
  simp [List.filter_cons, hplus, h9, h5, filter_isDigit_of_forall hd]

namespace MegaAgentScraper

lemma normalize_phone_empty : normalize_phone "" = "" := rfl

lemma normalize_phone_digits9 {x : String} (h9 : (digitsOf x).length = 9)
    (h5 : (digitsOf x).take 1 = ['5']) :
    normalize_phone x = ('+' :: '9' :: '9' :: '5' :: digitsOf x).asString := by
  have hx : x ≠ "" := ne_empty_of_digitsOf (by intro h; rw [h] at h9; simp at h9)
  simp only [normalize_phone]
  rw [if_neg hx, if_pos ⟨h9, h5⟩]

lemma normalize_phone_digits12 {x : String} (h12 : (digitsOf x).length = 12)
    (h995 : (digitsOf x).take 3 = ['9', '9', '5']) :
    normalize_phone x = ('+' :: digitsOf x).asString := by
  have hx : x ≠ "" := ne_empty_of_digitsOf (by intro h; rw [h] at h12; simp at h12)
  simp only [normalize_phone]
  rw [if_neg hx, if_neg (by rintro ⟨h, -⟩; omega), if_pos ⟨h12, h995⟩]

lemma normalize_phone_fallback {x : String} (hge : 9 ≤ (digitsOf x).length)
    (h1 : ¬((digitsOf x).length = 9 ∧ (digitsOf x).take 1 = ['5']))
    (h2 : ¬((digitsOf x).length = 12 ∧ (digitsOf x).take 3 = ['9', '9', '5'])) :
    normalize_phone x =
      ('+' :: '9' :: '9' :: '5' :: (digitsOf x).drop ((digitsOf x).length - 9)).asString := by
  have hx : x ≠ "" := ne_empty_of_digitsOf (by intro h; rw [h] at hge; simp at hge)
  simp only [normalize_phone]
  rw [if_neg hx, if_neg h1, if_neg h2, if_pos hge]

lemma normalize_phone_reject {x : String} (hlt : (digitsOf x).length < 9) :
    normalize_phone x = "" := by
  by_cases hx : x = ""
  · rw [hx, normalize_phone_empty]
  · simp only [normalize_phone]
    rw [if_neg hx, if_neg (by rintro ⟨h, -⟩; omega), if_neg (by rintro ⟨h, -⟩; omega),
      if_neg (by omega)]

/-- Normalizing a canonical `+995XXXXXXXXX` string reproduces it: its digit
string is the 12-digit `995…` form, so the second branch fires. -/
lemma normalize_phone_canon {ds : List Char} (h9 : ds.length = 9)
    (hd : ∀ c ∈ ds, c.isDigit = true) :
    normalize_phone (('+' :: '9' :: '9' :: '5' :: ds).asString) =
      ('+' :: '9' :: '9' :: '5' :: ds).asString := by
  have hdig := digitsOf_canon hd
  rw [normalize_phone_digits12 (by rw [hdig]; simp [h9]) (by rw [hdig]; rfl), hdig]

end MegaAgentScraper

namespace MasterDeduplicator

/-- On inputs with at least nine digits the deduplicator's normalizer agrees
with the scrapers' variant: the two differ only in the unreachable final
fall-through. -/
lemma normalize_phone_eq_scraper {x : String} (hge : 9 ≤ (digitsOf x).length) :
    normalize_phone x = MegaAgentScraper.normalize_phone x := by
  have hx : x ≠ "" := ne_empty_of_digitsOf (by intro h; rw [h] at hge; simp at hge)
  simp only [normalize_phone, MegaAgentScraper.normalize_phone]
  rw [if_neg hx, if_neg hx]
  split_ifs with h1 h2
  · rfl
  · rfl
  · rfl

lemma normalize_phone_passthrough {x : String} (hx : x ≠ "") (hlt : (digitsOf x).length < 9) :
    normalize_phone x = x := by
  simp only [normalize_phone]
  rw [if_neg hx, if_neg (by rintro ⟨h, -⟩; omega), if_neg (by rintro ⟨h, -⟩; omega),
    if_neg (by omega)]

end MasterDeduplicator

example : MegaAgentScraper.normalize_phone "511234567" = "+995511234567" := by decide
example : MegaAgentScraper.normalize_phone "995511234567" = "+995511234567" := by decide
example : MegaAgentScraper.normalize_phone "4123456789" = "+995123456789" := by decide
example : MegaAgentScraper.normalize_phone "12345" = "" := by decide
example : MasterDeduplicator.normalize_phone "12345" = "12345" := by decide
example : MegaAgentScraper.normalize_phone "555 123 456" = "+995555123456" := by decide
example : MegaAgentScraper.normalize_phone "995-555-123-456" = "+995555123456" := by decide
example : MasterDeduplicator.format_phone_for_excel "+995555123456" = "+995 555 123 456" := by decide
example : MegaAgentScraper.extract_phone_from_agent ∅ [("phone_number", "555123456")] = none := by decide
example : MegaAgentScraperEnhanced.extract_phone_from_agent_enhanced ∅
    ⟨[("phone_number", "555123456")], none⟩ = some "+995555123456" := by decide
example : MegaAgentScraper.feed_raw_phones ∅ ["511234567", " ", "junk", "995511234567"] =
    {"+995511234567"} := by decide
example : MasterDeduplicator.export_phone_only_rows {"+995555123456"} = ["+995 555 123 456"] := by
  rw [MasterDeduplicator.export_phone_only_rows, Finset.sort_singleton]
  decide

/-! Section: C1: the last-9-digits fallback of the normalizer -/

/-- C1 (counterexample): the spec's corrected rule says `normalize` rejects a
digit string of length ≥ 9 whose last-9-digit suffix does not start with `5`,
and in particular `normalize("4123456789") = None`.  The code has no such
proviso: both normalizer variants return `"+995123456789"` on `"4123456789"`
(and `"+995412345678"` on the nine-digit `"412345678"`), never the rejection
value. -/
theorem normalize_phone_fallback_counterexample :
    MegaAgentScraper.normalize_phone "4123456789" = "+995123456789" ∧
    MasterDeduplicator.normalize_phone "4123456789" = "+995123456789" ∧
    MegaAgentScraper.normalize_phone "412345678" = "+995412345678" ∧
    MegaAgentScraper.normalize_phone "4123456789" ≠ "" := by
  refine ⟨by decide, by decide, by decide, by decide⟩

/-- C1 (amended): for every raw string whose digit-stripped form has length
≥ 9 and is not matched by the exact 9-digit-starting-with-5 or
12-digit-starting-with-995 rules, `normalize` returns `"+995"` plus the last
9 digits unconditionally — no starts-with-`5` check, and no rejection; the
deduplicator variant agrees with the scraper variant on all such inputs. -/
theorem normalize_phone_fallback_last9 (x : String)
    (hge : 9 ≤ (digitsOf x).length)
    (h1 : ¬((digitsOf x).length = 9 ∧ (digitsOf x).take 1 = ['5']))
    (h2 : ¬((digitsOf x).length = 12 ∧ (digitsOf x).take 3 = ['9', '9', '5'])) :
    MegaAgentScraper.normalize_phone x =
      ('+' :: '9' :: '9' :: '5' :: (digitsOf x).drop ((digitsOf x).length - 9)).asString ∧
    MegaAgentScraper.normalize_phone x ≠ "" ∧
    MasterDeduplicator.normalize_phone x = MegaAgentScraper.normalize_phone x := by
  refine ⟨MegaAgentScraper.normalize_phone_fallback hge h1 h2, ?_, ?_⟩
  · rw [MegaAgentScraper.normalize_phone_fallback hge h1 h2]
    exact asString_ne_empty (by simp)
  · exact MasterDeduplicator.normalize_phone_eq_scraper hge

theorem normalize_phone_fallback_last9_witness :
    9 ≤ (digitsOf "4123456789").length ∧
    MegaAgentScraper.normalize_phone "4123456789" = "+995123456789" ∧
    MasterDeduplicator.normalize_phone "4123456789" =
      MegaAgentScraper.normalize_phone "4123456789" := by
  have h := normalize_phone_fallback_last9 "4123456789" (by decide) (by decide) (by decide)
  exact ⟨by decide, h.1.trans (by decide), h.2.2⟩

/-! Section: C2: totality and the rejection value -/

/-- C2 (counterexample): the spec says invalid input always yields `None`,
never a partial or unmodified garbage identity, with `normalize("12345") =
None`.  The deduplicator variant instead returns the input unchanged
(`return phone  # Return as-is if can't normalize`): it yields the truthy
garbage identity `"12345"`, not the falsy rejection value. -/
theorem master_normalize_garbage_counterexample :
    MasterDeduplicator.normalize_phone "12345" = "12345" ∧
    MasterDeduplicator.normalize_phone "12345" ≠ "" := by
  refine ⟨by decide, by decide⟩

/-- C2 (amended): both variants are total functions.  On any input whose
digit-stripped form has fewer than 9 digits (which is exactly the rejected
set — every input with ≥ 9 digits is accepted), the scraper variant returns
the falsy `""`; the deduplicator variant returns `""` only for the empty
string and otherwise returns the input unchanged. -/
theorem normalize_phone_rejection (x : String) (hlt : (digitsOf x).length < 9) :
    MegaAgentScraper.normalize_phone x = "" ∧
    MasterDeduplicator.normalize_phone x = (if x = "" then "" else x) := by
  refine ⟨MegaAgentScraper.normalize_phone_reject hlt, ?_⟩
  by_cases hx : x = ""
  · rw [if_pos hx, hx]
    rfl
  · rw [if_neg hx]
    exact MasterDeduplicator.normalize_phone_passthrough hx hlt

theorem normalize_phone_rejection_witness :
    ((digitsOf "12345").length < 9 ∧
      MegaAgentScraper.normalize_phone "12345" = "" ∧
      MasterDeduplicator.normalize_phone "12345" = "12345") ∧
    MegaAgentScraper.normalize_phone "" = "" := by
  have h1 := normalize_phone_rejection "12345" (by decide)
  have h2 := normalize_phone_rejection "" (by decide)
  exact ⟨⟨by decide, h1.1, h1.2.trans (by decide)⟩, h2.1⟩

/-! Section: C4: punctuation/spacing/prefix invariance -/

/-- The accepting branches in terms of the digit string alone: a raw input
whose digits are exactly `d` (nine digits led by `5`), or `995` followed by
`d`, normalizes to `"+995" ++ d`. -/
lemma normalize_phone_of_digits_eq {x : String} {d : List Char}
    (h9 : d.length = 9) (h5 : d.take 1 = ['5'])
    (h : digitsOf x = d ∨ digitsOf x = '9' :: '9' :: '5' :: d) :
    MegaAgentScraper.normalize_phone x = ('+' :: '9' :: '9' :: '5' :: d).asString := by
  rcases h with h | h
  · rw [MegaAgentScraper.normalize_phone_digits9 (by rw [h, h9]) (by rw [h, h5]), h]
  · rw [MegaAgentScraper.normalize_phone_digits12 (by rw [h]; simp [h9])
      (by rw [h]; rfl), h]

/-- C4: two raw strings that differ only by punctuation, spacing, a leading
`+`, or the presence of the `995` country prefix around the same 9
significant digits starting with `5` — i.e. whose digit strings are `d` or
`995 ++ d` for the same such `d` — normalize to the same identity
`"+995" ++ d`, in the scraper variant and the deduplicator variant alike. -/
theorem normalize_phone_punctuation_invariant (x y : String) (d : List Char)
    (h9 : d.length = 9) (h5 : d.take 1 = ['5'])
    (hx : digitsOf x = d ∨ digitsOf x = '9' :: '9' :: '5' :: d)
    (hy : digitsOf y = d ∨ digitsOf y = '9' :: '9' :: '5' :: d) :
    MegaAgentScraper.normalize_phone x = ('+' :: '9' :: '9' :: '5' :: d).asString ∧
    MegaAgentScraper.normalize_phone x = MegaAgentScraper.normalize_phone y ∧
    MasterDeduplicator.normalize_phone x = MegaAgentScraper.normalize_phone x ∧
    MasterDeduplicator.normalize_phone y = MegaAgentScraper.normalize_phone y := by
  have hgx : 9 ≤ (digitsOf x).length := by rcases hx with h | h <;> simp [h, h9]
  have hgy : 9 ≤ (digitsOf y).length := by rcases hy with h | h <;> simp [h, h9]
  have hnx := normalize_phone_of_digits_eq h9 h5 hx
  have hny := normalize_phone_of_digits_eq h9 h5 hy
  exact ⟨hnx, hnx.trans hny.symm, MasterDeduplicator.normalize_phone_eq_scraper hgx,
    MasterDeduplicator.normalize_phone_eq_scraper hgy⟩

theorem normalize_phone_punctuation_invariant_witness :
    MegaAgentScraper.normalize_phone "555 123 456" = "+995555123456" ∧
    MegaAgentScraper.normalize_phone "995-555-123-456" = "+995555123456" ∧
    MegaAgentScraper.normalize_phone "+995555123456" = "+995555123456" ∧
    MasterDeduplicator.normalize_phone "555 123 456" = "+995555123456" := by
  have h1 := normalize_phone_punctuation_invariant "555 123 456" "+995555123456"
    ['5', '5', '5', '1', '2', '3', '4', '5', '6'] (by decide) (by decide)
    (Or.inl (by decide)) (Or.inr (by decide))
  have h2 := normalize_phone_punctuation_invariant "995-555-123-456" "+995555123456"
    ['5', '5', '5', '1', '2', '3', '4', '5', '6'] (by decide) (by decide)
    (Or.inr (by decide)) (Or.inr (by decide))
  refine ⟨h1.1.trans (by decide), h2.1.trans (by decide),
    (h1.2.1.symm.trans h1.1).trans (by decide), ?_⟩
  exact h1.2.2.1.trans (h1.1.trans (by decide))

/-! Section: C10: idempotence on successful outputs -/

/-- C10: the scraper normalizer is idempotent on its successful outputs —
every accepted identity re-normalizes to itself, which is why reloading a
checkpoint through the normalizer is a no-op for already-canonical entries. -/
theorem normalize_phone_idempotent (x : String)
    (hx : MegaAgentScraper.normalize_phone x ≠ "") :
    MegaAgentScraper.normalize_phone (MegaAgentScraper.normalize_phone x) =
      MegaAgentScraper.normalize_phone x := by
  by_cases h1 : (digitsOf x).length = 9 ∧ (digitsOf x).take 1 = ['5']
  · rw [MegaAgentScraper.normalize_phone_digits9 h1.1 h1.2]
    exact MegaAgentScraper.normalize_phone_canon h1.1 isDigit_of_mem_digitsOf
  · by_cases h2 : (digitsOf x).length = 12 ∧ (digitsOf x).take 3 = ['9', '9', '5']
    · rw [MegaAgentScraper.normalize_phone_digits12 h2.1 h2.2]
      have hsplit : digitsOf x = '9' :: '9' :: '5' :: (digitsOf x).drop 3 := by
        conv_lhs => rw [← List.take_append_drop 3 (digitsOf x)]
        rw [h2.2]
        rfl
      rw [hsplit]
      refine MegaAgentScraper.normalize_phone_canon ?_ ?_
      · rw [List.length_drop, h2.1]
      · exact fun c hc => isDigit_of_mem_digitsOf c (List.drop_subset 3 _ hc)
    · by_cases h3 : 9 ≤ (digitsOf x).length
      · rw [MegaAgentScraper.normalize_phone_fallback h3 h1 h2]
        refine MegaAgentScraper.normalize_phone_canon ?_ ?_
        · rw [List.length_drop]
          omega
        · exact fun c hc => isDigit_of_mem_digitsOf c (List.drop_subset _ _ hc)
      · exact absurd (MegaAgentScraper.normalize_phone_reject (by omega)) hx

theorem normalize_phone_idempotent_witness :
    MegaAgentScraper.normalize_phone "995-571-233-844" ≠ "" ∧
    MegaAgentScraper.normalize_phone (MegaAgentScraper.normalize_phone "995-571-233-844") =
      MegaAgentScraper.normalize_phone "995-571-233-844" :=
  ⟨by decide, normalize_phone_idempotent "995-571-233-844" (by decide)⟩

/-! Section: C3/C5: the deduplicating accept loop as a set image -/

namespace MegaAgentScraper

/-- The accept step in terms of the optional normalization outcome. -/
lemma acceptRaw_eq (acc : Finset String) (p : String) :
    acceptRaw acc p =
      (match normalizeOpt p with
       | some n => insert n acc
       | none => acc) := by
  unfold acceptRaw normalizeOpt
  by_cases h : pstrip p = ""
  · simp [h, normalize_phone_empty]
  · by_cases h2 : normalize_phone (pstrip p) = "" <;> simp [h, h2]

/-- Feeding raw phones is exactly adjoining the set of successfully
normalized identities: the final accepted set is the union of the starting
set with the image of `normalizeOpt` over the rows. -/
lemma feed_raw_phones_eq (s : Finset String) (rows : List String) :
    feed_raw_phones s rows = s ∪ (rows.filterMap normalizeOpt).toFinset := by
  induction rows generalizing s with
  | nil => simp [feed_raw_phones]
  | cons p rest ih =>
    show feed_raw_phones (acceptRaw s p) rest = _
    rw [ih, acceptRaw_eq, List.filterMap_cons]
    cases h : normalizeOpt p with
    | none => simp
    | some n => simp [List.toFinset_cons, Finset.insert_union, Finset.union_insert]

end MegaAgentScraper

/-- C3: for any finite sequence of raw phone strings fed to a collector, the
final accepted set is exactly the set of distinct successfully-normalized
identities among the inputs — its size is the number of such distinct
identities, and any permutation of the input sequence yields the same final
set. -/
theorem collector_dedup_invariant (rows rows' : List String) (hperm : rows.Perm rows') :
    MegaAgentScraper.feed_raw_phones ∅ rows =
      (rows.filterMap MegaAgentScraper.normalizeOpt).toFinset ∧
    (MegaAgentScraper.feed_raw_phones ∅ rows).card =
      (rows.filterMap MegaAgentScraper.normalizeOpt).dedup.length ∧
    MegaAgentScraper.feed_raw_phones ∅ rows = MegaAgentScraper.feed_raw_phones ∅ rows' := by
  have h1 := MegaAgentScraper.feed_raw_phones_eq ∅ rows
  have h2 := MegaAgentScraper.feed_raw_phones_eq ∅ rows'
  rw [Finset.empty_union] at h1 h2
  refine ⟨h1, by rw [h1, List.card_toFinset], ?_⟩
  rw [h1, h2]
  exact List.toFinset_eq_of_perm _ _ (hperm.filterMap _)

theorem collector_dedup_invariant_witness :
    MegaAgentScraper.feed_raw_phones ∅ ["511234567", "bad", "995511234567", "571233844"] =
      (["511234567", "bad", "995511234567", "571233844"].filterMap
        MegaAgentScraper.normalizeOpt).toFinset ∧
    (MegaAgentScraper.feed_raw_phones ∅
      ["511234567", "bad", "995511234567", "571233844"]).card = 2 ∧
    MegaAgentScraper.feed_raw_phones ∅ ["511234567", "bad", "995511234567", "571233844"] =
      MegaAgentScraper.feed_raw_phones ∅ ["571233844", "995511234567", "bad", "511234567"] := by
  have h := collector_dedup_invariant ["511234567", "bad", "995511234567", "571233844"]
    ["571233844", "995511234567", "bad", "511234567"] (by decide)
  exact ⟨h.1, by decide, h.2.2⟩

/-- The multi-file preload is the union of the per-file normalized identity
sets: loading `files` adjoins exactly the successfully normalized identities
of all their rows. -/
lemma load_existing_phones_eq (s : Finset String) (files : List (List String)) :
    MegaAgentScraper.load_existing_phones s files =
      s ∪ (files.flatten.filterMap MegaAgentScraper.normalizeOpt).toFinset := by
  induction files generalizing s with
  | nil => simp [MegaAgentScraper.load_existing_phones]
  | cons f rest ih =>
    show MegaAgentScraper.load_existing_phones (MegaAgentScraper.feed_raw_phones s f) rest = _
    rw [ih, MegaAgentScraper.feed_raw_phones_eq, List.flatten_cons, List.filterMap_append,
      List.toFinset_append, Finset.union_assoc]

/-- C5: resuming from a checkpoint.  Concretely: run A accepted
{`+995511111111`, `+995522222222`} and its checkpoint stores the exported
(space-formatted) renderings; run B preloads the checkpoint by re-normalizing
every stored raw phone, then is fed raw phones normalizing to P1 and P3 — only
P3 is counted as new and the final set is {P1, P2, P3}.  Generally, preloading
from several files seeds the union of their normalized identities. -/
theorem checkpoint_resume :
    (MegaAgentScraper.load_existing_phones ∅ [["+995 511 111 111", "+995 522 222 222"]] =
        {"+995511111111", "+995522222222"} ∧
      MegaAgentScraper.feed_raw_phones_count
        (MegaAgentScraper.load_existing_phones ∅ [["+995 511 111 111", "+995 522 222 222"]])
        ["511 111 111", "533333333"] =
        ({"+995511111111", "+995522222222", "+995533333333"}, 1)) ∧
    ∀ (s : Finset String) (files : List (List String)),
      MegaAgentScraper.load_existing_phones s files =
        s ∪ (files.flatten.filterMap MegaAgentScraper.normalizeOpt).toFinset :=
  ⟨⟨by decide, by decide⟩, load_existing_phones_eq⟩

/-! Section: C6: target-count early termination -/

/-- The acceptance loop stops exactly at the target: starting below the
target, fed distinct phones not yet accepted and enough of them, the final
set has exactly `target` elements. -/
lemma scrapeLoop_card (target : Nat) :
    ∀ (ps : List String) (s : Finset String), ps.Nodup → (∀ p ∈ ps, p ∉ s) →
      s.card < target → target ≤ s.card + ps.length →
      (MegaAgentScraper.scrapeLoop target s (ps.map some)).card = target := by
  intro ps
  induction ps with
  | nil =>
    intro s _ _ hlt hge
    simp only [List.length_nil] at hge
    omega
  | cons p rest ih =>
    intro s hnd hnotin hlt hge
    have hp : p ∉ s := hnotin p (by simp)
    have hcard : (insert p s).card = s.card + 1 := Finset.card_insert_of_not_mem hp
    simp only [List.map_cons, MegaAgentScraper.scrapeLoop]
    by_cases htar : target ≤ (insert p s).card
    · rw [if_pos htar]
      omega
    · rw [if_neg htar]
      refine ih (insert p s) hnd.of_cons ?_ (by omega) ?_
      · intro q hq hmem
        rcases Finset.mem_insert.mp hmem with rfl | hqs
        · exact (List.nodup_cons.mp hnd).1 hq
        · exact hnotin q (List.mem_cons_of_mem p hq) hqs
      · simp only [List.length_cons] at hge
        omega

/-- C6: with `targetCount = 3` and a source of ever-new distinct valid phones
(any duplicate-free supply of at least 3), the collector run ends with exactly
3 accepted entries — the target check sits at the acceptance boundary, so it
stops at the target without overshooting — and reports success. -/
theorem collector_reaches_target (ps : List String) (hnd : ps.Nodup)
    (hlen : 3 ≤ ps.length) :
    (MegaAgentScraper.turbo_scrape 3 ∅ (ps.map some)).card = 3 ∧
    MegaAgentScraper.scrape_success 3 (MegaAgentScraper.turbo_scrape 3 ∅ (ps.map some)) =
      true := by
  have ht : MegaAgentScraper.turbo_scrape 3 ∅ (ps.map some) =
      MegaAgentScraper.scrapeLoop 3 ∅ (ps.map some) := by
    unfold MegaAgentScraper.turbo_scrape
    rw [if_neg (by simp)]
  have h : (MegaAgentScraper.scrapeLoop 3 ∅ (ps.map some)).card = 3 :=
    scrapeLoop_card 3 ps ∅ hnd (by simp) (by simp) (by simpa using hlen)
  rw [ht]
  refine ⟨h, ?_⟩
  simp [MegaAgentScraper.scrape_success, h]

theorem collector_reaches_target_witness :
    (MegaAgentScraper.turbo_scrape 3 ∅
      (["+995511111111", "+995522222222", "+995533333333", "+995544444444"].map some)).card =
      3 ∧
    MegaAgentScraper.scrape_success 3 (MegaAgentScraper.turbo_scrape 3 ∅
      (["+995511111111", "+995522222222", "+995533333333", "+995544444444"].map some)) =
      true :=
  collector_reaches_target _ (by decide) (by decide)

/-! Section: C7: export snapshots -/

/-- Formatting a canonical identity `+995` + 9 digits for export produces the
Excel-spaced rendering `+995 XXX XXX XXX`. -/
lemma format_phone_for_excel_canon {d : List Char} (h9 : d.length = 9)
    (hd : ∀ c ∈ d, c.isDigit = true) :
    MasterDeduplicator.format_phone_for_excel (('+' :: '9' :: '9' :: '5' :: d).asString) =
      ("+995 ".data ++ d.take 3 ++ ' ' :: (d.drop 3).take 3 ++ ' ' :: d.drop 6).asString := by
  have hdig := digitsOf_canon hd
  simp only [MasterDeduplicator.format_phone_for_excel]
  rw [hdig, if_pos ⟨by simp [h9], rfl⟩]
  have htake : (d.drop 6).take 3 = d.drop 6 := List.take_of_length_le (by simp [h9])
  rw [show ('9' :: '9' :: '5' :: d).drop 3 = d from rfl,
    show ('9' :: '9' :: '5' :: d).drop 6 = d.drop 3 from rfl,
    show ('9' :: '9' :: '5' :: d).drop 9 = d.drop 6 from rfl, htake]

/-- The excel_utils sink writes one row per phone; a phone already starting
with `+995` is kept and only prefixed with the forced-text space. -/
lemma excel_compatible_rows_singleton (p : String)
    (hp : p.data.take 4 = ['+', '9', '9', '5']) :
    ExcelUtils.save_phones_to_excel_compatible_rows {p} = [(' ' :: p.data).asString] := by
  rw [ExcelUtils.save_phones_to_excel_compatible_rows, Finset.sort_singleton]
  simp [hp]

/-- C7 (counterexample): the claim says each row holds the canonical identity
(`"+995"` plus 9 digits).  The export rows instead hold the Excel-spaced
rendering: exporting the accepted set {`+995555123456`} writes the row
`"+995 555 123 456"`, which is not the canonical identity string. -/
theorem export_rows_counterexample :
    MasterDeduplicator.export_phone_only_rows {"+995555123456"} = ["+995 555 123 456"] ∧
    ("+995 555 123 456" : String) ≠ "+995555123456" := by
  constructor
  · rw [MasterDeduplicator.export_phone_only_rows, Finset.sort_singleton]
    decide
  · decide

/-- C7 (amended): every export snapshot writes one row per accepted identity,
ordered ascending by the canonical identity string regardless of acceptance
order (the rows are the image of the sorted identity list); each canonical
identity `+995` + 9 digits is rendered in the cell as the Excel-spaced
`+995 XXX XXX XXX` (and the excel_utils sink as the identity prefixed with a
forced-text space), not as the bare identity. -/
theorem export_rows_sorted_formatted (s : Finset String) (d : List Char)
    (h9 : d.length = 9) (hd : ∀ c ∈ d, c.isDigit = true) :
    MasterDeduplicator.export_phone_only_rows s =
      (s.sort (· ≤ ·)).map MasterDeduplicator.format_phone_for_excel ∧
    List.Sorted (· ≤ ·) (s.sort (· ≤ ·)) ∧
    (s.sort (· ≤ ·)).toFinset = s ∧
    (MasterDeduplicator.export_phone_only_rows s).length = s.card ∧
    MasterDeduplicator.format_phone_for_excel (('+' :: '9' :: '9' :: '5' :: d).asString) =
      ("+995 ".data ++ d.take 3 ++ ' ' :: (d.drop 3).take 3 ++ ' ' :: d.drop 6).asString ∧
    ExcelUtils.save_phones_to_excel_compatible_rows
        {(('+' :: '9' :: '9' :: '5' :: d).asString)} =
      [(' ' :: '+' :: '9' :: '9' :: '5' :: d).asString] := by
  refine ⟨rfl, Finset.sort_sorted _ _, Finset.sort_toFinset _ _, ?_,
    format_phone_for_excel_canon h9 hd, excel_compatible_rows_singleton _ rfl⟩
  rw [MasterDeduplicator.export_phone_only_rows, List.length_map, Finset.length_sort]

theorem export_rows_sorted_formatted_witness :
    (MasterDeduplicator.export_phone_only_rows {"+995555123456"}).length = 1 ∧
    MasterDeduplicator.format_phone_for_excel "+995555123456" = "+995 555 123 456" ∧
    ExcelUtils.save_phones_to_excel_compatible_rows {"+995555123456"} =
      [" +995555123456"] := by
  have h := export_rows_sorted_formatted {"+995555123456"}
    ['5', '5', '5', '1', '2', '3', '4', '5', '6'] (by decide) (by decide)
  have e : ('+' :: '9' :: '9' :: '5' ::
      ['5', '5', '5', '1', '2', '3', '4', '5', '6']).asString = "+995555123456" := by decide
  refine ⟨?_, ?_, ?_⟩
  · rw [h.1, Finset.sort_singleton]
    decide
  · have hf := h.2.2.2.2.1
    rw [e] at hf
    exact hf.trans (by decide)
  · have hx := h.2.2.2.2.2
    rw [e] at hx
    exact hx.trans (by decide)

/-! Section: C8: the field-name probe of phone extraction -/

/-- C8 (counterexample): the claimed allowlist is `phone, phone_number,
mobile, telephone, contact, phoneNumber` for extraction.  Neither extractor
implements it: on a record whose only field is `phone_number` — present,
non-empty, and normalizing successfully — the mega scraper's extractor
returns nothing (its list omits `phone_number`), while the enhanced
extractor returns the identity (its list starts with `phone_number` but omits
`contact` and `phoneNumber`). -/
theorem extract_phone_fields_counterexample :
    MegaAgentScraper.extract_phone_from_agent ∅ [("phone_number", "555123456")] = none ∧
    MegaAgentScraperEnhanced.extract_phone_from_agent_enhanced ∅
      ⟨[("phone_number", "555123456")], none⟩ = some "+995555123456" ∧
    MegaAgentScraper.normalize_phone (pstrip "555123456") = "+995555123456" := by
  refine ⟨by decide, by decide, by decide⟩

/-- The probing loop returns the first candidate in field order. -/
lemma extractFirst_eq_head (aps : Finset String) (agent : List (String × String)) :
    ∀ fl : List String, MegaAgentScraper.extractFirst aps agent fl =
      (fl.filterMap (candidateOfField aps agent)).head? := by
  intro fl
  induction fl with
  | nil => rfl
  | cons f rest ih =>
    simp only [MegaAgentScraper.extractFirst, List.filterMap_cons, candidateOfField]
    cases hl : agent.lookup f with
    | none => simpa using ih
    | some v =>
      by_cases hv : v ≠ ""
      · by_cases hn : MegaAgentScraper.normalize_phone (pstrip v) ≠ "" ∧
            MegaAgentScraper.normalize_phone (pstrip v) ∉ aps
        · simp [hv, hn]
        · simp [hv, hn, ih]
      · simp [hv, ih]

/-- Same statement for the enhanced probing loop. -/
lemma extractFirstE_eq_head (aps : Finset String) (fields : List (String × String)) :
    ∀ fl : List String, MegaAgentScraperEnhanced.extractFirstE aps fields fl =
      (fl.filterMap (candidateOfFieldE aps fields)).head? := by
  intro fl
  induction fl with
  | nil => rfl
  | cons f rest ih =>
    simp only [MegaAgentScraperEnhanced.extractFirstE, List.filterMap_cons, candidateOfFieldE]
    cases hl : fields.lookup f with
    | none => simpa using ih
    | some v =>
      by_cases hv : v ≠ ""
      · by_cases hn : MegaAgentScraper.normalize_phone v ≠ "" ∧
            MegaAgentScraper.normalize_phone v ∉ aps
        · simp [hv, hn]
        · simp [hv, hn, ih]
      · simp [hv, ih]

/-- C8 (amended): extraction probes a fixed-priority field list and returns
the first field whose value is present, non-empty, normalizes successfully,
and is not already accepted — but the two implementations use different
lists: `phone, mobile, telephone, contact, phoneNumber` in the mega scraper
and `phone_number, phone, mobile, tel, telephone` in the enhanced one. -/
theorem extract_phone_first_candidate (aps : Finset String)
    (agent fields : List (String × String)) :
    MegaAgentScraper.extract_phone_from_agent aps agent =
      (MegaAgentScraper.phone_fields.filterMap (candidateOfField aps agent)).head? ∧
    MegaAgentScraper.phone_fields = ["phone", "mobile", "telephone", "contact", "phoneNumber"] ∧
    MegaAgentScraperEnhanced.phone_fields =
      ["phone_number", "phone", "mobile", "tel", "telephone"] ∧
    MegaAgentScraperEnhanced.extractFirstE aps fields MegaAgentScraperEnhanced.phone_fields =
      (MegaAgentScraperEnhanced.phone_fields.filterMap (candidateOfFieldE aps fields)).head? :=
  ⟨extractFirst_eq_head aps agent _, rfl, rfl, extractFirstE_eq_head aps fields _⟩

/-! Section: C9: run invariants of the collecting loop -/

namespace MegaAgentScraper

/-- The inner accept loop over an entity's agent records only grows the
accepted set. -/
lemma subset_acceptAgents : ∀ (agents : List (List (String × String)))
    (s : Finset String), s ⊆ acceptAgents s agents := by
  intro agents
  induction agents with
  | nil => intro s; exact Finset.Subset.refl s
  | cons a rest ih =>
    intro s
    have hstep : s ⊆ (match extract_phone_from_agent s a with
        | some phone => insert phone s
        | none => s) := by
      cases extract_phone_from_agent s a with
      | some phone => exact Finset.subset_insert _ _
      | none => exact Finset.Subset.refl s
    exact hstep.trans (ih _)

/-- One outer-loop step only grows the accepted set. -/
lemma subset_collectStep (agentsOf : String → List (List (String × String)))
    (st : CollectorState) (agent_id : String) :
    st.agent_phones ⊆ (collectStep agentsOf st agent_id).agent_phones := by
  unfold collectStep
  split_ifs
  · exact Finset.Subset.refl _
  · exact subset_acceptAgents _ _

/-- The accepted set never shrinks across a run. -/
lemma subset_mega_agent_scrape (agentsOf : String → List (List (String × String))) :
    ∀ (ids : List String) (st : CollectorState),
      st.agent_phones ⊆ (mega_agent_scrape agentsOf st ids).agent_phones := by
  intro ids
  induction ids with
  | nil => intro st; exact Finset.Subset.refl _
  | cons i rest ih =>
    intro st
    exact (subset_collectStep agentsOf st i).trans (ih (collectStep agentsOf st i))

/-- Invariant preservation: the extraction trace stays duplicate-free and
every traced id is marked processed. -/
lemma mega_agent_scrape_trace (agentsOf : String → List (List (String × String))) :
    ∀ (ids : List String) (st : CollectorState),
      st.extract_trace.Nodup → (∀ i ∈ st.extract_trace, i ∈ st.processed_agents) →
      (mega_agent_scrape agentsOf st ids).extract_trace.Nodup ∧
        ∀ i ∈ (mega_agent_scrape agentsOf st ids).extract_trace,
          i ∈ (mega_agent_scrape agentsOf st ids).processed_agents := by
  intro ids
  induction ids with
  | nil => intro st h1 h2; exact ⟨h1, h2⟩
  | cons i rest ih =>
    intro st h1 h2
    refine ih (collectStep agentsOf st i) ?_ ?_
    · unfold collectStep
      split_ifs with hmem
      · exact h1
      · have hni : i ∉ st.extract_trace := fun hin => hmem (h2 i hin)
        simp only [List.nodup_append, List.nodup_cons, List.not_mem_nil, not_false_iff,
          List.nodup_nil, and_true, true_and]
        exact ⟨h1, fun a ha => by
          simp only [List.mem_singleton]
          rintro rfl
          exact hni ha⟩
    · unfold collectStep
      split_ifs with hmem
      · exact h2
      · intro j hj
        simp only [List.mem_append, List.mem_singleton] at hj
        rcases hj with hj | rfl
        · exact Finset.mem_insert_of_mem (h2 j hj)
        · exact Finset.mem_insert_self _ _

/-- If every phone candidate of a record already normalizes into the
accepted set, the probe returns nothing. -/
lemma extractFirst_eq_none_of_mem (s : Finset String) (agent : List (String × String)) :
    ∀ fl : List String,
      (∀ f ∈ fl, ∀ v, agent.lookup f = some v →
        normalize_phone (pstrip v) ≠ "" → normalize_phone (pstrip v) ∈ s) →
      extractFirst s agent fl = none := by
  intro fl
  induction fl with
  | nil => intro _; rfl
  | cons f rest ih =>
    intro h
    simp only [extractFirst]
    cases hl : agent.lookup f with
    | none => exact ih fun g hg => h g (List.mem_cons_of_mem f hg)
    | some v =>
      show (if v ≠ "" then
          (if normalize_phone (pstrip v) ≠ "" ∧ normalize_phone (pstrip v) ∉ s then
            some (normalize_phone (pstrip v))
          else extractFirst s agent rest)
        else extractFirst s agent rest) = none
      by_cases hv : v ≠ ""
      · rw [if_pos hv,
          if_neg (fun hc => hc.2 (h f (List.mem_cons_self f rest) v hl hc.1))]
        exact ih fun g hg => h g (List.mem_cons_of_mem f hg)
      · rw [if_neg hv]
        exact ih fun g hg => h g (List.mem_cons_of_mem f hg)

end MegaAgentScraper

/-- C9: within one collector run, (i) the accepted set never shrinks; (ii)
phone extraction is invoked at most once per entity id — an id yielding no
phone is marked processed and skipped on any re-encounter, so the extraction
trace is duplicate-free; (iii) a record all of whose candidate identities are
already accepted contributes nothing: processing it leaves the accepted set
unchanged (idempotent accept). -/
theorem collector_run_invariants (agentsOf : String → List (List (String × String)))
    (st : MegaAgentScraper.CollectorState) (ids : List String)
    (s : Finset String) (agent : List (String × String)) :
    st.agent_phones ⊆ (MegaAgentScraper.mega_agent_scrape agentsOf st ids).agent_phones ∧
    (st.extract_trace.Nodup → (∀ i ∈ st.extract_trace, i ∈ st.processed_agents) →
      (MegaAgentScraper.mega_agent_scrape agentsOf st ids).extract_trace.Nodup) ∧
    ((∀ f ∈ MegaAgentScraper.phone_fields, ∀ v, agent.lookup f = some v →
        MegaAgentScraper.normalize_phone (pstrip v) ≠ "" →
        MegaAgentScraper.normalize_phone (pstrip v) ∈ s) →
      MegaAgentScraper.acceptAgents s [agent] = s) := by
  refine ⟨MegaAgentScraper.subset_mega_agent_scrape agentsOf ids st,
    fun h1 h2 => (MegaAgentScraper.mega_agent_scrape_trace agentsOf ids st h1 h2).1,
    fun h => ?_⟩
  have hnone : MegaAgentScraper.extract_phone_from_agent s agent = none :=
    MegaAgentScraper.extractFirst_eq_none_of_mem s agent MegaAgentScraper.phone_fields h
  simp [MegaAgentScraper.acceptAgents, MegaAgentScraper.extract_phone_from_agent] at hnone ⊢
  rw [hnone]

theorem collector_run_invariants_witness :
    (MegaAgentScraper.CollectorState.mk ∅ ∅ []).agent_phones ⊆
      (MegaAgentScraper.mega_agent_scrape (fun _ => [[("phone", "511111111")]])
        ⟨∅, ∅, []⟩ ["7", "8", "7"]).agent_phones ∧
    (MegaAgentScraper.mega_agent_scrape (fun _ => [[("phone", "511111111")]])
      ⟨∅, ∅, []⟩ ["7", "8", "7"]).extract_trace.Nodup ∧
    MegaAgentScraper.acceptAgents {"+995511111111"} [[("phone", "511111111")]] =
      {"+995511111111"} := by
  have h := collector_run_invariants (fun _ => [[("phone", "511111111")]])
    ⟨∅, ∅, []⟩ ["7", "8", "7"] {"+995511111111"} [("phone", "511111111")]
  refine ⟨h.1, h.2.1 (by simp) (by simp), h.2.2 ?_⟩
  intro f hf v hv hne
  fin_cases hf
  · have hv' : some "511111111" = some v := hv
    cases Option.some.inj hv'
    decide
  · exact Option.noConfusion hv
  · exact Option.noConfusion hv
  · exact Option.noConfusion hv
  · exact Option.noConfusion hv
